import Mathlib

/-!
Verification of the LearnSync persistence and analytics core.

The development shallowly embeds two source components:

* `StorageManager` (src/js/storage.js): a generic record store over ordered
  collections of free-form records.  A JavaScript object is modelled as an
  association list from field names to values (`Record`); object spread
  (merge) and property assignment are modelled by `mergeFields` and
  `setField`, which replace the first occurrence of a key in place and
  otherwise append, matching JavaScript property-order semantics.

* `ProgressTracker` (src/js/progressTracker.js and the unnamed progress
  module): the statistics aggregator.  Timestamps are modelled as
  milliseconds since the Unix epoch (`Nat`), with the single consistent
  time reference of the model being UTC (offset zero), so that
  `toISOString` date truncation and `new Date(year, 0, 1)` agree.
  JavaScript numbers appearing in averages are modelled as rationals, and
  `Math.round` as floor of x + 1/2, which is exact for the nonnegative
  quantities involved.

The nondeterministic id generator and the wall clock are passed as
explicit parameters to the operations that consume them.
-/

/-- A JavaScript value as far as the store claims need: strings and numbers. -/
inductive Value where
  | str : String → Value
  | num : Int → Value
deriving DecidableEq

/-- A JavaScript object: ordered association list of named fields. -/
abbrev Record := List (String × Value)

/-- Property read `obj[f]`: first matching key, `none` models `undefined`. -/
def getField (r : Record) (f : String) : Option Value :=
  match r with
  | [] => none
  | (k, v) :: rest => if k = f then some v else getField rest f

/-- Property write `obj[f] = v`: overwrite the first occurrence in place
(JavaScript keeps the original insertion position), else append. -/
def setField (r : Record) (f : String) (v : Value) : Record :=
  match r with
  | [] => [(f, v)]
  | (k, w) :: rest => if k = f then (f, v) :: rest else (k, w) :: setField rest f v

/-- Object spread `{...a, ...u}`: assign every field of `u` into `a` in order. -/
def mergeFields (a : Record) (u : Record) : Record :=
  u.foldl (fun acc e => setField acc e.1 e.2) a

theorem getField_setField_same (r : Record) (f : String) (v : Value) :
    getField (setField r f v) f = some v := by
  induction r with
  | nil => simp [setField, getField]
  | cons e rest ih =>
    by_cases h : e.1 = f
    · simp [setField, getField, h]
    · simp [setField, getField, h, ih]

theorem getField_setField_ne (r : Record) (f g : String) (v : Value) (hfg : f ≠ g) :
    getField (setField r f v) g = getField r g := by
  induction r with
  | nil => simp [setField, getField, hfg]
  | cons e rest ih =>
    obtain ⟨k, w⟩ := e
    by_cases h : k = f
    · subst h
      simp only [setField, if_pos rfl, getField]
      rw [if_neg hfg, if_neg hfg]
    · simp only [setField, if_neg h, getField, ih]

theorem mergeFields_cons (a : Record) (e : String × Value) (rest : Record) :
    mergeFields a (e :: rest) = mergeFields (setField a e.1 e.2) rest := rfl

theorem getField_mergeFields_of_notMem (a : Record) (u : Record) (f : String)
    (h : f ∉ u.map Prod.fst) :
    getField (mergeFields a u) f = getField a f := by
  induction u generalizing a with
  | nil => rfl
  | cons e rest ih =>
    simp only [List.map_cons, List.mem_cons] at h
    push_neg at h
    rw [mergeFields_cons, ih _ h.2]
    exact getField_setField_ne a e.1 f e.2 (Ne.symm h.1)

theorem getField_mergeFields_of_mem (a : Record) (u : Record) (f : String) (v : Value)
    (hnd : (u.map Prod.fst).Nodup) (h : getField u f = some v) :
    getField (mergeFields a u) f = some v := by
  induction u generalizing a with
  | nil => simp [getField] at h
  | cons e rest ih =>
    simp only [List.map_cons, List.nodup_cons] at hnd
    rw [mergeFields_cons]
    by_cases hk : e.1 = f
    · simp only [getField, if_pos hk] at h
      subst hk
      rw [getField_mergeFields_of_notMem _ _ _ hnd.1, getField_setField_same, h]
    · simp only [getField, if_neg hk] at h
      exact ih (setField a e.1 e.2) hnd.2 h

/-- StorageManager.add: stamp a generated id and creation time onto the new
item, append it to the collection, return both the item and the new
collection contents.  The generated id and the clock are explicit
parameters of the model. -/
def StorageManager.add (data : List Record) (item : Record) (newId : Value)
    (now : String) : Record × List Record :=
  let newItem := setField (setField item "id" newId) "createdAt" (Value.str now)
  (newItem, data ++ [newItem])

/-- StorageManager.getById: first record whose id field equals the argument. -/
def StorageManager.getById (data : List Record) (i : Value) : Option Record :=
  data.find? (fun r => decide (getField r "id" = some i))

/-- StorageManager.update: find the first record with the given id, replace it
in place by the merge of the old record with the updates, stamped with a
fresh updatedAt; return the merged record and the persisted contents.
When no record matches, return null and leave the contents unchanged. -/
def StorageManager.update (i : Value) (u : Record) (now : String) :
    List Record → Option Record × List Record
  | [] => (none, [])
  | r :: rest =>
    if getField r "id" = some i then
      let updatedItem := setField (mergeFields r u) "updatedAt" (Value.str now)
      (some updatedItem, updatedItem :: rest)
    else
      let res := StorageManager.update i u now rest
      (res.1, r :: res.2)

/-- StorageManager.delete: remove the first record with the given id; report
whether a record was removed. -/
def StorageManager.delete (i : Value) :
    List Record → Bool × List Record
  | [] => (false, [])
  | r :: rest =>
    if getField r "id" = some i then
      (true, rest)
    else
      let res := StorageManager.delete i rest
      (res.1, r :: res.2)

/-- StorageManager.deleteMany: drop every record satisfying the predicate,
report how many were dropped. -/
def StorageManager.deleteMany (p : Record → Bool) (data : List Record) :
    Nat × List Record :=
  let filtered := data.filter (fun r => !(p r))
  (data.length - filtered.length, filtered)

theorem getField_eq_none_iff (u : Record) (f : String) :
    getField u f = none ↔ f ∉ u.map Prod.fst := by
  induction u with
  | nil => simp [getField]
  | cons e rest ih =>
    by_cases h : e.1 = f
    · subst h
      simp [getField]
    · simp [getField, h, ih, Ne.symm h]

theorem list_find?_append_of_none {α : Type} (p : α → Bool) (l₁ l₂ : List α)
    (h : ∀ x ∈ l₁, p x = false) : (l₁ ++ l₂).find? p = l₂.find? p := by
  induction l₁ with
  | nil => rfl
  | cons a rest ih =>
    rw [List.cons_append, List.find?_cons_of_neg _ (by simp [h a (List.mem_cons_self a rest)])]
    exact ih (fun x hx => h x (List.mem_cons_of_mem a hx))

/-- C4: on an id that matches no record, update reports null, delete reports
false, and both leave the collection contents unchanged. -/
theorem update_delete_unknown_id (data : List Record) (i : Value) (u : Record)
    (now : String) (h : ∀ r ∈ data, getField r "id" ≠ some i) :
    StorageManager.update i u now data = (none, data) ∧
    StorageManager.delete i data = (false, data) := by
  induction data with
  | nil => exact ⟨rfl, rfl⟩
  | cons r rest ih =>
    have hr := h r (List.mem_cons_self r rest)
    obtain ⟨h1, h2⟩ := ih (fun x hx => h x (List.mem_cons_of_mem r hx))
    constructor
    · simp [StorageManager.update, hr, h1]
    · simp [StorageManager.delete, hr, h2]

/-- C4 witness at a concrete store and unknown id. -/
theorem update_delete_unknown_id_witness :
    StorageManager.update (Value.str "z") [("a", Value.num 7)] "t9"
        [[("id", Value.str "a"), ("x", Value.num 1)]] =
      (none, [[("id", Value.str "a"), ("x", Value.num 1)]]) ∧
    StorageManager.delete (Value.str "z")
        [[("id", Value.str "a"), ("x", Value.num 1)]] =
      (false, [[("id", Value.str "a"), ("x", Value.num 1)]]) :=
  update_delete_unknown_id [[("id", Value.str "a"), ("x", Value.num 1)]]
    (Value.str "z") [("a", Value.num 7)] "t9" (by decide)

/-- C5: when the collection splits around the first record carrying the id,
update returns and persists exactly the merge of that record with the
update fields, stamped with updatedAt: every field named in the updates
(other than updatedAt) takes its new value, every other field keeps its
old value, and updatedAt takes the fresh stamp. -/
theorem update_merges (pre post : List Record) (r : Record) (i : Value) (u : Record)
    (now : String)
    (hpre : ∀ x ∈ pre, getField x "id" ≠ some i)
    (hr : getField r "id" = some i)
    (hu : (u.map Prod.fst).Nodup) :
    StorageManager.update i u now (pre ++ r :: post) =
      (some (setField (mergeFields r u) "updatedAt" (Value.str now)),
       pre ++ setField (mergeFields r u) "updatedAt" (Value.str now) :: post) ∧
    (∀ f v, f ≠ "updatedAt" → getField u f = some v →
      getField (setField (mergeFields r u) "updatedAt" (Value.str now)) f = some v) ∧
    (∀ f, f ≠ "updatedAt" → getField u f = none →
      getField (setField (mergeFields r u) "updatedAt" (Value.str now)) f
        = getField r f) ∧
    getField (setField (mergeFields r u) "updatedAt" (Value.str now)) "updatedAt"
      = some (Value.str now) := by
  refine ⟨?_, ?_, ?_, getField_setField_same _ _ _⟩
  · induction pre with
    | nil => simp [StorageManager.update, hr]
    | cons x rest ih =>
      have hx := hpre x (List.mem_cons_self x rest)
      have h2 := ih (fun y hy => hpre y (List.mem_cons_of_mem x hy))
      have hstep : StorageManager.update i u now (x :: (rest ++ r :: post)) =
          ((StorageManager.update i u now (rest ++ r :: post)).1,
           x :: (StorageManager.update i u now (rest ++ r :: post)).2) := by
        simp [StorageManager.update, hx]
      rw [List.cons_append, hstep, h2]
      rfl
  · intro f v hf hv
    rw [getField_setField_ne _ _ _ _ (Ne.symm hf)]
    exact getField_mergeFields_of_mem r u f v hu hv
  · intro f hf hnone
    rw [getField_setField_ne _ _ _ _ (Ne.symm hf)]
    exact getField_mergeFields_of_notMem r u f ((getField_eq_none_iff u f).mp hnone)

/-- C5 witness realizing the merge-update scenario from the spec: stored
record a=1, b=2 updated with b=3 keeps a=1 and takes b=3. -/
theorem update_merges_witness :
    StorageManager.update (Value.str "r1") [("b", Value.num 3)] "t2"
        [[("id", Value.str "r1"), ("a", Value.num 1), ("b", Value.num 2)]] =
      (some [("id", Value.str "r1"), ("a", Value.num 1), ("b", Value.num 3),
             ("updatedAt", Value.str "t2")],
       [[("id", Value.str "r1"), ("a", Value.num 1), ("b", Value.num 3),
         ("updatedAt", Value.str "t2")]]) ∧
    getField [("id", Value.str "r1"), ("a", Value.num 1), ("b", Value.num 3),
      ("updatedAt", Value.str "t2")] "b" = some (Value.num 3) ∧
    getField [("id", Value.str "r1"), ("a", Value.num 1), ("b", Value.num 3),
      ("updatedAt", Value.str "t2")] "a" = some (Value.num 1) := by
  have h := update_merges []
    [[("id", Value.str "r1"), ("a", Value.num 1), ("b", Value.num 2)]].tail
    [("id", Value.str "r1"), ("a", Value.num 1), ("b", Value.num 2)]
    (Value.str "r1") [("b", Value.num 3)] "t2" (by decide) (by decide) (by decide)
  refine ⟨?_, ?_, ?_⟩
  · exact h.1
  · exact h.2.1 "b" (Value.num 3) (by decide) (by decide)
  · exact h.2.2.1 "a" (by decide) (by decide)

/-- C6: adding with a fresh generated id appends the stamped record at the
end, and getById on the new id returns exactly that record, which carries
the caller fields unchanged plus the generated id and createdAt. -/
theorem add_roundtrip (data : List Record) (item : Record) (newId : Value)
    (now : String)
    (hfresh : ∀ r ∈ data, getField r "id" ≠ some newId) :
    StorageManager.getById (StorageManager.add data item newId now).2 newId =
      some (StorageManager.add data item newId now).1 ∧
    (StorageManager.add data item newId now).2 =
      data ++ [(StorageManager.add data item newId now).1] ∧
    getField (StorageManager.add data item newId now).1 "id" = some newId ∧
    getField (StorageManager.add data item newId now).1 "createdAt"
      = some (Value.str now) ∧
    ∀ f, f ≠ "id" → f ≠ "createdAt" →
      getField (StorageManager.add data item newId now).1 f = getField item f := by
  have hid : getField (StorageManager.add data item newId now).1 "id" = some newId := by
    show getField (setField (setField item "id" newId) "createdAt" (Value.str now)) "id"
      = some newId
    rw [getField_setField_ne _ _ _ _ (by decide)]
    exact getField_setField_same _ _ _
  refine ⟨?_, rfl, hid, getField_setField_same _ _ _, ?_⟩
  · show (data ++ [(StorageManager.add data item newId now).1]).find? _ = _
    rw [list_find?_append_of_none _ data _
      (fun r hr => by simp [hfresh r hr])]
    simp [List.find?_cons_of_pos, hid]
  · intro f h1 h2
    show getField (setField (setField item "id" newId) "createdAt" (Value.str now)) f
      = getField item f
    rw [getField_setField_ne _ _ _ _ (Ne.symm h2), getField_setField_ne _ _ _ _ (Ne.symm h1)]

/-- C6 witness at a concrete collection and field map. -/
theorem add_roundtrip_witness :
    StorageManager.getById
        (StorageManager.add [[("id", Value.str "a")]] [("t", Value.num 4)]
          (Value.str "b") "t3").2 (Value.str "b") =
      some (StorageManager.add [[("id", Value.str "a")]] [("t", Value.num 4)]
          (Value.str "b") "t3").1 ∧
    getField (StorageManager.add [[("id", Value.str "a")]] [("t", Value.num 4)]
        (Value.str "b") "t3").1 "t" = some (Value.num 4) := by
  have h := add_roundtrip [[("id", Value.str "a")]] [("t", Value.num 4)]
    (Value.str "b") "t3" (by decide)
  exact ⟨h.1, h.2.2.2.2 "t" (by decide) (by decide)⟩

/-- A store mutation on one collection.  The generated id and the clock of
add and update are explicit parameters of the model. -/
inductive StoreOp where
  | addOp (fields : Record) (newId : Value) (now : String)
  | updateOp (i : Value) (u : Record) (now : String)
  | deleteOp (i : Value)
  | deleteManyOp (p : Record → Bool)

/-- Effect of one store operation on the persisted collection contents. -/
def applyOp (data : List Record) : StoreOp → List Record
  | .addOp f nid t => (StorageManager.add data f nid t).2
  | .updateOp i u t => (StorageManager.update i u t data).2
  | .deleteOp i => (StorageManager.delete i data).2
  | .deleteManyOp p => (StorageManager.deleteMany p data).2

/-- Run a sequence of store operations from an initial collection state. -/
def runOps (data : List Record) (ops : List StoreOp) : List Record :=
  ops.foldl applyOp data

/-- An update operation is clean when its update fields name neither id nor
createdAt; other operations are always clean. -/
def cleanOp : StoreOp → Bool
  | .updateOp _ u _ => !(u.any (fun e => e.1 == "id" || e.1 == "createdAt"))
  | _ => true

/-- C2 counterexample: the claim quantifies over every partialFields
argument, but update spreads the updates over the old record, so an
update whose fields name id overwrites the id that add assigned.  The
record stored as id a is returned by update with its id changed to b. -/
theorem update_can_change_id :
    getField ((StorageManager.add [] [] (Value.str "a") "t0").1) "id"
      = some (Value.str "a") ∧
    ((StorageManager.update (Value.str "a") [("id", Value.str "b")] "t1"
        (StorageManager.add [] [] (Value.str "a") "t0").2).1.map
      (fun r => getField r "id")) = some (some (Value.str "b")) := by decide

theorem mem_update_snd (i : Value) (u : Record) (now : String) :
    ∀ (data : List Record), ∀ r' ∈ (StorageManager.update i u now data).2,
      r' ∈ data ∨
      ∃ r ∈ data, r' = setField (mergeFields r u) "updatedAt" (Value.str now) := by
  intro data
  induction data with
  | nil => intro r' h; exact absurd h (by simp [StorageManager.update])
  | cons r rest ih =>
    intro r' h
    by_cases hr : getField r "id" = some i
    · simp only [StorageManager.update, if_pos hr, List.mem_cons] at h
      rcases h with h | h
      · exact Or.inr ⟨r, List.mem_cons_self r rest, h⟩
      · exact Or.inl (List.mem_cons_of_mem r h)
    · simp only [StorageManager.update, if_neg hr, List.mem_cons] at h
      rcases h with h | h
      · exact Or.inl (h ▸ List.mem_cons_self r rest)
      · rcases ih r' h with h2 | ⟨r0, hr0, he⟩
        · exact Or.inl (List.mem_cons_of_mem r h2)
        · exact Or.inr ⟨r0, List.mem_cons_of_mem r hr0, he⟩

theorem mem_delete_snd (i : Value) :
    ∀ (data : List Record), ∀ r' ∈ (StorageManager.delete i data).2, r' ∈ data := by
  intro data
  induction data with
  | nil => intro r' h; exact absurd h (by simp [StorageManager.delete])
  | cons r rest ih =>
    intro r' h
    by_cases hr : getField r "id" = some i
    · simp only [StorageManager.delete, if_pos hr] at h
      exact List.mem_cons_of_mem r h
    · simp only [StorageManager.delete, if_neg hr, List.mem_cons] at h
      rcases h with h | h
      · exact h ▸ List.mem_cons_self r rest
      · exact List.mem_cons_of_mem r (ih r' h)

theorem applyOp_trace (s : List Record) (op : StoreOp) (hop : cleanOp op = true) :
    ∀ r' ∈ applyOp s op,
      (∃ r ∈ s, getField r' "id" = getField r "id" ∧
        getField r' "createdAt" = getField r "createdAt") ∨
      (∃ fs nid t, op = StoreOp.addOp fs nid t ∧
        getField r' "id" = some nid ∧
        getField r' "createdAt" = some (Value.str t)) := by
  intro r' hmem
  cases op with
  | addOp f nid t =>
    simp only [applyOp, StorageManager.add, List.mem_append, List.mem_singleton] at hmem
    rcases hmem with h | h
    · exact Or.inl ⟨r', h, rfl, rfl⟩
    · refine Or.inr ⟨f, nid, t, rfl, ?_, ?_⟩
      · rw [h, getField_setField_ne _ _ _ _ (by decide)]
        exact getField_setField_same _ _ _
      · rw [h]
        exact getField_setField_same _ _ _
  | updateOp i u t =>
    have hid : "id" ∉ u.map Prod.fst := by
      intro hc
      simp only [cleanOp, Bool.not_eq_true', List.any_eq_false] at hop
      obtain ⟨e, he, hk⟩ := List.mem_map.mp hc
      have := hop e he
      simp [hk] at this
    have hca : "createdAt" ∉ u.map Prod.fst := by
      intro hc
      simp only [cleanOp, Bool.not_eq_true', List.any_eq_false] at hop
      obtain ⟨e, he, hk⟩ := List.mem_map.mp hc
      have := hop e he
      simp [hk] at this
    rcases mem_update_snd i u t s r' hmem with h | ⟨r, hr, he⟩
    · exact Or.inl ⟨r', h, rfl, rfl⟩
    · refine Or.inl ⟨r, hr, ?_, ?_⟩
      · rw [he, getField_setField_ne _ _ _ _ (by decide),
          getField_mergeFields_of_notMem _ _ _ hid]
      · rw [he, getField_setField_ne _ _ _ _ (by decide),
          getField_mergeFields_of_notMem _ _ _ hca]
  | deleteOp i =>
    exact Or.inl ⟨r', mem_delete_snd i s r' hmem, rfl, rfl⟩
  | deleteManyOp p =>
    simp only [applyOp, StorageManager.deleteMany, List.mem_filter] at hmem
    exact Or.inl ⟨r', hmem.1, rfl, rfl⟩

/-- C2 (amended): over any sequence of add, update, delete and deleteMany
operations in which no update names id or createdAt among its update
fields, every record in the final collection carries the id and createdAt
it entered with: either those of a record of the initial state, or the id
and creation stamp assigned by the add operation that created it.  In
particular such an update preserves the id and createdAt of the record it
replaces.  (As stated, with arbitrary partialFields, the claim is false:
see the counterexample.) -/
theorem id_createdAt_provenance (ops : List StoreOp)
    (hclean : ops.all cleanOp = true) :
    ∀ (s : List Record), ∀ r' ∈ runOps s ops,
      (∃ r ∈ s, getField r' "id" = getField r "id" ∧
        getField r' "createdAt" = getField r "createdAt") ∨
      (∃ fs nid t, StoreOp.addOp fs nid t ∈ ops ∧
        getField r' "id" = some nid ∧
        getField r' "createdAt" = some (Value.str t)) := by
  induction ops with
  | nil => intro s r' h; exact Or.inl ⟨r', h, rfl, rfl⟩
  | cons op rest ih =>
    intro s r' h
    simp only [List.all_cons, Bool.and_eq_true] at hclean
    have hrun : runOps s (op :: rest) = runOps (applyOp s op) rest := rfl
    rcases ih hclean.2 (applyOp s op) r' (hrun ▸ h) with ⟨r, hr, e1, e2⟩ | ⟨fs, nid, t, hin, e1, e2⟩
    · rcases applyOp_trace s op hclean.1 r hr with ⟨r0, hr0, f1, f2⟩ | ⟨fs, nid, t, hop, f1, f2⟩
      · exact Or.inl ⟨r0, hr0, e1.trans f1, e2.trans f2⟩
      · exact Or.inr ⟨fs, nid, t, hop ▸ List.mem_cons_self op rest,
          e1.trans f1, e2.trans f2⟩
    · exact Or.inr ⟨fs, nid, t, List.mem_cons_of_mem op hin, e1, e2⟩

/-- C2 (amended) witness: a clean update applied to a one-record store; the
resulting record keeps id a and createdAt t0. -/
theorem id_createdAt_provenance_witness :
    (∃ r ∈ [[("id", Value.str "a"), ("createdAt", Value.str "t0")]],
      getField [("id", Value.str "a"), ("createdAt", Value.str "t0"),
        ("x", Value.num 5), ("updatedAt", Value.str "t1")] "id" = getField r "id" ∧
      getField [("id", Value.str "a"), ("createdAt", Value.str "t0"),
        ("x", Value.num 5), ("updatedAt", Value.str "t1")] "createdAt"
        = getField r "createdAt") ∨
    (∃ fs nid t,
      StoreOp.addOp fs nid t ∈ [StoreOp.updateOp (Value.str "a")
        [("x", Value.num 5)] "t1"] ∧
      getField [("id", Value.str "a"), ("createdAt", Value.str "t0"),
        ("x", Value.num 5), ("updatedAt", Value.str "t1")] "id" = some nid ∧
      getField [("id", Value.str "a"), ("createdAt", Value.str "t0"),
        ("x", Value.num 5), ("updatedAt", Value.str "t1")] "createdAt"
        = some (Value.str t)) :=
  id_createdAt_provenance
    [StoreOp.updateOp (Value.str "a") [("x", Value.num 5)] "t1"] (by decide)
    [[("id", Value.str "a"), ("createdAt", Value.str "t0")]]
    [("id", Value.str "a"), ("createdAt", Value.str "t0"),
      ("x", Value.num 5), ("updatedAt", Value.str "t1")] (by decide)

/-- One day in milliseconds, as used by the week arithmetic of the source. -/
def msPerDay : Nat := 86400000

/-- Gregorian leap-year test. -/
def isLeap (y : Nat) : Bool := (y % 4 == 0 && y % 100 != 0) || y % 400 == 0

def daysInYear (y : Nat) : Nat := if isLeap y then 366 else 365

def daysBeforeYearAux : Nat → Nat
  | 0 => 0
  | n + 1 => daysBeforeYearAux n + daysInYear (1970 + n)

/-- Days from 1970-01-01 to January 1 of year y, for y at least 1970.  This
is the UTC-model timestamp of new Date(y, 0, 1) divided by one day. -/
def daysBeforeYear (y : Nat) : Nat := daysBeforeYearAux (y - 1970)

/-- Locate the civil year containing the given epoch day, structurally on a
fuel bound that always suffices because every year has at least one day. -/
def yearSplitAux : Nat → Nat → Nat → Nat × Nat
  | 0, y, rem => (y, rem)
  | fuel + 1, y, rem =>
    if rem < daysInYear y then (y, rem)
    else yearSplitAux fuel (y + 1) (rem - daysInYear y)

/-- Civil (UTC) year of an epoch day: the getFullYear of the model. -/
def yearOfDay (d : Nat) : Nat := (yearSplitAux d 1970 d).1

/-- Zero-based day of year of an epoch day. -/
def dayOfYear (d : Nat) : Nat := (yearSplitAux d 1970 d).2

theorem daysInYear_pos (y : Nat) : 0 < daysInYear y := by
  simp only [daysInYear]
  split <;> omega

theorem daysBeforeYear_succ (y : Nat) (h : 1970 ≤ y) :
    daysBeforeYear (y + 1) = daysBeforeYear y + daysInYear y := by
  have he : y + 1 - 1970 = (y - 1970) + 1 := by omega
  rw [daysBeforeYear, he, daysBeforeYearAux, daysBeforeYear]
  have hy : 1970 + (y - 1970) = y := by omega
  rw [hy]

theorem yearSplitAux_spec : ∀ (fuel y rem : Nat), rem ≤ fuel → 1970 ≤ y →
    daysBeforeYear y + rem =
      daysBeforeYear (yearSplitAux fuel y rem).1 + (yearSplitAux fuel y rem).2 ∧
    (yearSplitAux fuel y rem).2 < daysInYear (yearSplitAux fuel y rem).1 ∧
    1970 ≤ (yearSplitAux fuel y rem).1 := by
  intro fuel
  induction fuel with
  | zero =>
    intro y rem hle hy
    have h0 : rem = 0 := Nat.le_zero.mp hle
    subst h0
    exact ⟨rfl, daysInYear_pos y, hy⟩
  | succ fuel ih =>
    intro y rem hle hy
    by_cases h : rem < daysInYear y
    · have hy2 : yearSplitAux (fuel + 1) y rem = (y, rem) := by
        simp only [yearSplitAux, if_pos h]
      rw [hy2]
      exact ⟨rfl, h, hy⟩
    · have hy2 : yearSplitAux (fuel + 1) y rem =
          yearSplitAux fuel (y + 1) (rem - daysInYear y) := by
        simp only [yearSplitAux, if_neg h]
      rw [hy2]
      have hpos := daysInYear_pos y
      obtain ⟨e1, e2, e3⟩ := ih (y + 1) (rem - daysInYear y) (by omega) (by omega)
      refine ⟨?_, e2, e3⟩
      rw [daysBeforeYear_succ y hy] at e1
      omega

/-- Every epoch day splits as the days before its civil year plus its day
of year, and the day of year is within the year. -/
theorem day_decompose (d : Nat) :
    d = daysBeforeYear (yearOfDay d) + dayOfYear d ∧
    dayOfYear d < daysInYear (yearOfDay d) := by
  obtain ⟨e1, e2, _⟩ := yearSplitAux_spec d 1970 d (le_refl d) (by omega)
  have h0 : daysBeforeYear 1970 = 0 := rfl
  rw [h0] at e1
  exact ⟨by rw [yearOfDay, dayOfYear]; omega, e2⟩

/-- ProgressTracker.getWeekKey on a UTC-model timestamp: the civil year of
the date, paired with the floor of the millisecond distance from January 1
of that year divided by one week, plus one.  The source computes the
distance as date minus new Date(year, 0, 1) in milliseconds. -/
def ProgressTracker.getWeekKey (t : Nat) : Nat × Nat :=
  (yearOfDay (t / msPerDay),
   (t - daysBeforeYear (yearOfDay (t / msPerDay)) * msPerDay) / (7 * msPerDay) + 1)

/-- Week key of a daily bucket date: the aggregation parses the bucket date
string back to the UTC midnight of that day and applies getWeekKey. -/
def weekKeyOfDay (d : Nat) : Nat × Nat := ProgressTracker.getWeekKey (d * msPerDay)

/-- Modelled from the spec: the simplified week number of a date is
floor(daysSinceJan1OfYear / 7) + 1 where daysSinceJan1OfYear counts whole
calendar days from January 1 of the year of the date, and the week bucket
key pairs the year with that number. -/
def specSimplifiedWeekKey (d : Nat) : Nat × Nat :=
  (yearOfDay d, (d - daysBeforeYear (yearOfDay d)) / 7 + 1)

theorem div_mul_week (q r m : Nat) (hm : 0 < m) (hr : r < m) :
    (q * m + r) / (7 * m) = q / 7 := by
  have hs : q % 7 < 7 := Nat.mod_lt q (by omega)
  have key : q * m + r = 7 * m * (q / 7) + (q % 7 * m + r) := by
    conv_lhs => rw [← Nat.div_add_mod q 7]
    ring
  have hsm : q % 7 * m + r < 7 * m := by
    have h6 : q % 7 * m ≤ 6 * m := Nat.mul_le_mul_right m (by omega)
    omega
  rw [key, Nat.mul_add_div (by omega), Nat.div_eq_of_lt hsm]
  exact Nat.add_zero _

/-- C7: for every daily bucket date, the week bucket key the source computes
by millisecond arithmetic from UTC midnight is exactly the year paired
with the simplified week number floor(daysSinceJan1OfYear / 7) + 1 of the
spec, not any ISO week number. -/
theorem weekKey_is_simplified (d : Nat) :
    weekKeyOfDay d = specSimplifiedWeekKey d := by
  have hms : 0 < msPerDay := by norm_num [msPerDay]
  unfold weekKeyOfDay ProgressTracker.getWeekKey specSimplifiedWeekKey
  rw [Nat.mul_div_cancel _ hms]
  refine congrArg (fun w => (yearOfDay d, w + 1)) ?_
  rw [← Nat.sub_mul, ← Nat.add_zero ((d - daysBeforeYear (yearOfDay d)) * msPerDay)]
  exact div_mul_week _ 0 _ hms hms

/-- getWeekKey ignores the time of day: on any timestamp it agrees with the
week key of the calendar day containing it.  The goal-progress evaluation
calls getWeekKey on the current instant while the buckets are keyed from
midnights, so the two key spaces coincide. -/
theorem getWeekKey_timestamp_day (t : Nat) :
    ProgressTracker.getWeekKey t = weekKeyOfDay (t / msPerDay) := by
  have hms : 0 < msPerDay := by norm_num [msPerDay]
  obtain ⟨hdec, _⟩ := day_decompose (t / msPerDay)
  unfold weekKeyOfDay ProgressTracker.getWeekKey
  rw [Nat.mul_div_cancel _ hms]
  refine congrArg (fun w => (yearOfDay (t / msPerDay), w + 1)) ?_
  have hmod : t % msPerDay < msPerDay := Nat.mod_lt t hms
  have ht : msPerDay * (t / msPerDay) + t % msPerDay = t := Nat.div_add_mod t msPerDay
  have hjle : daysBeforeYear (yearOfDay (t / msPerDay)) ≤ t / msPerDay := by omega
  have e1 : t - daysBeforeYear (yearOfDay (t / msPerDay)) * msPerDay =
      (t / msPerDay - daysBeforeYear (yearOfDay (t / msPerDay))) * msPerDay
        + t % msPerDay := by
    rw [Nat.sub_mul]
    simp only [msPerDay] at ht hjle hmod ⊢
    omega
  have e2 : t / msPerDay * msPerDay - daysBeforeYear (yearOfDay (t / msPerDay)) * msPerDay =
      (t / msPerDay - daysBeforeYear (yearOfDay (t / msPerDay))) * msPerDay + 0 := by
    rw [Nat.sub_mul, Nat.add_zero]
  rw [e1, e2, div_mul_week _ _ _ hms hmod, div_mul_week _ 0 _ hms hms]

/-- Month lengths of a civil year. -/
def monthLengths (leap : Bool) : List Nat :=
  [31, if leap then 29 else 28, 31, 30, 31, 30, 31, 31, 30, 31, 30, 31]

def monthFind (m doy : Nat) : List Nat → Nat × Nat
  | [] => (m, doy + 1)
  | len :: rest => if doy < len then (m, doy + 1) else monthFind (m + 1) (doy - len) rest

/-- Civil (UTC) month of an epoch day, 1-based: the month digits of the
toISOString date of that day. -/
def monthOfDay (d : Nat) : Nat :=
  (monthFind 1 (dayOfYear d) (monthLengths (isLeap (yearOfDay d)))).1

/-- Month bucket key of a daily bucket date: the YYYY-MM prefix of the ISO
date string, modelled as the (year, month) pair. -/
def monthKeyOfDay (d : Nat) : Nat × Nat := (yearOfDay d, monthOfDay d)

section AggMachinery

variable {κ α β : Type} [DecidableEq κ]

/-- JS object property lookup by key: first matching entry. -/
def alookup (k : κ) : List (κ × β) → Option β
  | [] => none
  | e :: rest => if e.1 = k then some e.2 else alookup k rest

/-- The ensure-then-mutate idiom on a JS object used by every aggregation
loop of the source: when the key is present apply the mutation to its
value in place, otherwise insert the mutated zero value at the end. -/
def upsertWith (m : List (κ × β)) (k : κ) (z : β) (f : β → β) : List (κ × β) :=
  match m with
  | [] => [(k, f z)]
  | e :: rest => if e.1 = k then (e.1, f e.2) :: rest else e :: upsertWith rest k z f

/-- One aggregation loop: fold the items into a keyed accumulator object. -/
def foldAgg (key : α → κ) (z : β) (g : β → α → β) (l : List α)
    (m : List (κ × β)) : List (κ × β) :=
  l.foldl (fun acc a => upsertWith acc (key a) z (fun b => g b a)) m

theorem foldAgg_cons (key : α → κ) (z : β) (g : β → α → β) (a : α) (l : List α)
    (m : List (κ × β)) :
    foldAgg key z g (a :: l) m =
      foldAgg key z g l (upsertWith m (key a) z (fun b => g b a)) := rfl

theorem alookup_eq_none_iff (m : List (κ × β)) (k : κ) :
    alookup k m = none ↔ k ∉ m.map Prod.fst := by
  induction m with
  | nil => simp [alookup]
  | cons e rest ih =>
    by_cases h : e.1 = k
    · subst h
      simp [alookup]
    · simp [alookup, h, ih, Ne.symm h]

theorem mem_keys_upsertWith (m : List (κ × β)) (k k' : κ) (z : β) (f : β → β) :
    k' ∈ (upsertWith m k z f).map Prod.fst ↔ k' ∈ m.map Prod.fst ∨ k' = k := by
  induction m with
  | nil => simp [upsertWith]
  | cons e rest ih =>
    by_cases h : e.1 = k
    · subst h
      simp [upsertWith]
      tauto
    · simp [upsertWith, h, ih]
      tauto

theorem nodupKeys_upsertWith (m : List (κ × β)) (k : κ) (z : β) (f : β → β)
    (h : (m.map Prod.fst).Nodup) :
    ((upsertWith m k z f).map Prod.fst).Nodup := by
  induction m with
  | nil => simp [upsertWith]
  | cons e rest ih =>
    simp only [List.map_cons, List.nodup_cons] at h
    by_cases he : e.1 = k
    · simp only [upsertWith, if_pos he, List.map_cons, List.nodup_cons]
      exact ⟨h.1, h.2⟩
    · simp only [upsertWith, if_neg he, List.map_cons, List.nodup_cons]
      refine ⟨?_, ih h.2⟩
      intro hc
      rcases (mem_keys_upsertWith rest k e.1 z f).mp hc with hc | hc
      · exact h.1 hc
      · exact he hc

theorem nodupKeys_foldAgg (key : α → κ) (z : β) (g : β → α → β) :
    ∀ (l : List α) (m : List (κ × β)), (m.map Prod.fst).Nodup →
      ((foldAgg key z g l m).map Prod.fst).Nodup := by
  intro l
  induction l with
  | nil => intro m h; exact h
  | cons a l ih =>
    intro m h
    rw [foldAgg_cons]
    exact ih _ (nodupKeys_upsertWith m (key a) z _ h)

/-- Sum of a measure of the values over the entries whose key satisfies a
predicate. -/
def sumBy (p : κ → Bool) (μ : β → Nat) (m : List (κ × β)) : Nat :=
  ((m.filter (fun e => p e.1)).map (fun e => μ e.2)).sum

theorem sumBy_nil (p : κ → Bool) (μ : β → Nat) : sumBy p μ [] = 0 := rfl

theorem sumBy_cons (p : κ → Bool) (μ : β → Nat) (e : κ × β) (m : List (κ × β)) :
    sumBy p μ (e :: m) = (if p e.1 then μ e.2 else 0) + sumBy p μ m := by
  by_cases hp : p e.1 <;> simp [sumBy, hp]

theorem sumBy_upsertWith (p : κ → Bool) (μ : β → Nat) (m : List (κ × β)) (k : κ)
    (z : β) (f : β → β) (c : Nat) (hz : μ z = 0) (hf : ∀ b, μ (f b) = μ b + c) :
    sumBy p μ (upsertWith m k z f) = sumBy p μ m + (if p k then c else 0) := by
  induction m with
  | nil =>
    show sumBy p μ [(k, f z)] = sumBy p μ [] + _
    rw [sumBy_cons, sumBy_nil]
    by_cases hp : p k <;> simp [hp, hf, hz]
  | cons e rest ih =>
    by_cases he : e.1 = k
    · simp only [upsertWith, if_pos he, sumBy_cons, hf]
      subst he
      by_cases hp : p e.1 <;> simp [hp] <;> omega
    · simp only [upsertWith, if_neg he, sumBy_cons, ih]
      omega

theorem sumBy_foldAgg (p : κ → Bool) (μ : β → Nat) (key : α → κ) (z : β)
    (g : β → α → β) (ν : α → Nat) (hz : μ z = 0)
    (hg : ∀ b a, μ (g b a) = μ b + ν a) :
    ∀ (l : List α) (m : List (κ × β)),
      sumBy p μ (foldAgg key z g l m) =
        sumBy p μ m + ((l.filter (fun a => p (key a))).map ν).sum := by
  intro l
  induction l with
  | nil => intro m; simp [foldAgg]
  | cons a l ih =>
    intro m
    rw [foldAgg_cons, ih, sumBy_upsertWith p μ m (key a) z _ (ν a) hz (fun b => hg b a)]
    by_cases hp : p (key a) <;> simp [List.filter_cons, hp] <;> omega

theorem sumBy_eq_zero_of_notMem (μ : β → Nat) (m : List (κ × β)) (k : κ)
    (h : k ∉ m.map Prod.fst) :
    sumBy (fun x => decide (x = k)) μ m = 0 := by
  induction m with
  | nil => rfl
  | cons e rest ih =>
    simp only [List.map_cons, List.mem_cons] at h
    push_neg at h
    rw [sumBy_cons, if_neg (by simpa using Ne.symm h.1), ih h.2]

theorem sumBy_single (μ : β → Nat) (m : List (κ × β)) (k : κ) (b : β)
    (hnd : (m.map Prod.fst).Nodup) (h : alookup k m = some b) :
    sumBy (fun x => decide (x = k)) μ m = μ b := by
  induction m with
  | nil => simp [alookup] at h
  | cons e rest ih =>
    simp only [List.map_cons, List.nodup_cons] at hnd
    by_cases he : e.1 = k
    · rw [alookup, if_pos he] at h
      injection h with h
      rw [sumBy_cons, if_pos (by simp [he]), h,
        sumBy_eq_zero_of_notMem μ rest k (he ▸ hnd.1)]
      omega
    · rw [alookup, if_neg he] at h
      rw [sumBy_cons, if_neg (by simp [he]), ih hnd.2 h]
      omega

/-- For an aggregation started from the empty object, the measure of the
bucket stored at a key is the summed contribution of the items mapping to
that key. -/
theorem alookup_foldAgg_some_sum (key : α → κ) (z : β) (g : β → α → β)
    (μ : β → Nat) (ν : α → Nat) (hz : μ z = 0)
    (hg : ∀ b a, μ (g b a) = μ b + ν a) (l : List α) (k : κ) (b : β)
    (h : alookup k (foldAgg key z g l []) = some b) :
    μ b = ((l.filter (fun a => decide (key a = k))).map ν).sum := by
  have hnd := nodupKeys_foldAgg key z g l [] (by simp)
  rw [← sumBy_single μ _ k b hnd h,
    sumBy_foldAgg (fun x => decide (x = k)) μ key z g ν hz hg l [], sumBy_nil]
  simp

/-- Reading a bucket measure with a zero default from an aggregation started
from the empty object gives exactly the summed contribution at that key,
whether or not the key is present. -/
theorem alookup_foldAgg_getD (key : α → κ) (z : β) (g : β → α → β)
    (μ : β → Nat) (ν : α → Nat) (hz : μ z = 0)
    (hg : ∀ b a, μ (g b a) = μ b + ν a) (l : List α) (k : κ) :
    ((alookup k (foldAgg key z g l [])).map μ).getD 0 =
      ((l.filter (fun a => decide (key a = k))).map ν).sum := by
  cases hc : alookup k (foldAgg key z g l []) with
  | none =>
    have hk := (alookup_eq_none_iff _ _).mp hc
    have h0 := sumBy_eq_zero_of_notMem μ _ k hk
    rw [sumBy_foldAgg (fun x => decide (x = k)) μ key z g ν hz hg l [], sumBy_nil] at h0
    simp only [Option.map_none', Option.getD_none]
    omega
  | some b =>
    simp only [Option.map_some', Option.getD_some]
    exact alookup_foldAgg_some_sum key z g μ ν hz hg l k b hc

/-- Value-map over an object (the second pass of the weekly and monthly
aggregations, which attaches the derived average) commutes with lookup. -/
theorem alookup_map_value (h : β → β) (m : List (κ × β)) (k : κ) :
    alookup k (m.map (fun e => (e.1, h e.2))) = (alookup k m).map h := by
  induction m with
  | nil => rfl
  | cons e rest ih =>
    by_cases he : e.1 = k <;> simp [alookup, he, ih]

end AggMachinery

/-- An activity (progress) record as the aggregator consumes it.  Absent
optional JS fields are modelled by their falsy value: satisfaction 0,
difficulty and progressType the empty string, timeSpent 0. -/
structure ActivityRecord where
  taskId : Nat
  completedAt : Nat
  timeSpent : Nat
  satisfaction : Nat
  difficulty : String
  progressType : String
deriving DecidableEq

/-- Calendar-day bucket key of a timestamp: the toISOString date truncation
of the UTC model, as an epoch day number standing for YYYY-MM-DD. -/
def dayKey (t : Nat) : Nat := t / msPerDay

structure DayBucket where
  timeSpent : Nat
  sessions : Nat
  satisfaction : Nat
  satisfactionCount : Nat
deriving DecidableEq

def DayBucket.zero : DayBucket := ⟨0, 0, 0, 0⟩

/-- Accumulate one record into its daily bucket, exactly as the per-record
loop of getProgressStats mutates dailyStats. -/
def addRecordToDay (b : DayBucket) (r : ActivityRecord) : DayBucket :=
  { timeSpent := b.timeSpent + r.timeSpent
    sessions := b.sessions + 1
    satisfaction :=
      if r.satisfaction ≠ 0 then b.satisfaction + r.satisfaction else b.satisfaction
    satisfactionCount :=
      if r.satisfaction ≠ 0 then b.satisfactionCount + 1 else b.satisfactionCount }

/-- Mutable state of the getProgressStats record loop, including the local
variables totalSatisfaction, satisfactionCount and longestSession. -/
structure StatsAcc where
  totalTimeSpent : Nat
  totalSessions : Nat
  bySatisfaction : List (Nat × Nat)
  byDifficulty : List (String × Nat)
  byProgressType : List (String × Nat)
  dailyStats : List (Nat × DayBucket)
  tasksWorkedOn : List Nat
  totalSatisfaction : Nat
  satisfactionCount : Nat
  longestSession : Nat

/-- The body of the forEach loop of getProgressStats. -/
def statsStep (s : StatsAcc) (r : ActivityRecord) : StatsAcc :=
  { totalTimeSpent := s.totalTimeSpent + r.timeSpent
    totalSessions := s.totalSessions + 1
    longestSession :=
      if r.timeSpent > s.longestSession then r.timeSpent else s.longestSession
    bySatisfaction :=
      if r.satisfaction ≠ 0 then
        upsertWith s.bySatisfaction r.satisfaction 0 (fun c => c + 1)
      else s.bySatisfaction
    totalSatisfaction :=
      if r.satisfaction ≠ 0 then s.totalSatisfaction + r.satisfaction
      else s.totalSatisfaction
    satisfactionCount :=
      if r.satisfaction ≠ 0 then s.satisfactionCount + 1 else s.satisfactionCount
    byDifficulty :=
      if r.difficulty ≠ "" then
        upsertWith s.byDifficulty r.difficulty 0 (fun c => c + 1)
      else s.byDifficulty
    byProgressType :=
      if r.progressType ≠ "" then
        upsertWith s.byProgressType r.progressType 0 (fun c => c + 1)
      else s.byProgressType
    dailyStats :=
      upsertWith s.dailyStats (dayKey r.completedAt) DayBucket.zero
        (fun b => addRecordToDay b r)
    tasksWorkedOn :=
      if r.taskId ∈ s.tasksWorkedOn then s.tasksWorkedOn
      else s.tasksWorkedOn ++ [r.taskId] }

/-- The zero-valued statistics state getProgressStats starts from. -/
def initAcc : StatsAcc :=
  { totalTimeSpent := 0
    totalSessions := 0
    bySatisfaction := [(1, 0), (2, 0), (3, 0), (4, 0), (5, 0)]
    byDifficulty := [("easy", 0), ("medium", 0), ("hard", 0)]
    byProgressType := [("manual", 0), ("auto", 0), ("timer", 0)]
    dailyStats := []
    tasksWorkedOn := []
    totalSatisfaction := 0
    satisfactionCount := 0
    longestSession := 0 }

/-- JavaScript Math.round on the nonnegative rationals of the model. -/
def jsRound (x : ℚ) : ℤ := ⌊x + 1/2⌋

/-- Round the ratio of two naturals to one decimal place, as the source
does with Math.round(v * 10) / 10. -/
def avg1dp (sum count : Nat) : ℚ :=
  (jsRound (((sum : ℚ) / (count : ℚ)) * 10) : ℚ) / 10

structure PeriodBucket where
  timeSpent : Nat
  sessions : Nat
  satisfaction : Nat
  satisfactionCount : Nat
  days : Nat
  averageSatisfaction : ℚ
deriving DecidableEq

def PeriodBucket.zero : PeriodBucket := ⟨0, 0, 0, 0, 0, 0⟩

/-- Accumulate one daily bucket into a weekly or monthly bucket. -/
def addDayToPeriod (p : PeriodBucket) (b : DayBucket) : PeriodBucket :=
  { p with
    timeSpent := p.timeSpent + b.timeSpent
    sessions := p.sessions + b.sessions
    satisfaction := p.satisfaction + b.satisfaction
    satisfactionCount := p.satisfactionCount + b.satisfactionCount
    days := p.days + 1 }

/-- Second pass of the weekly and monthly aggregations: attach the derived
average satisfaction to a bucket. -/
def setPeriodAvg (p : PeriodBucket) : PeriodBucket :=
  { p with averageSatisfaction :=
      if p.satisfactionCount > 0 then avg1dp p.satisfaction p.satisfactionCount
      else 0 }

/-- aggregateWeeklyStats and aggregateMonthlyStats, parameterized by the
bucket key function applied to each daily bucket date: accumulate the
daily buckets into period buckets, then attach the derived averages. -/
def aggregatePeriodStats (key : Nat → Nat × Nat) (daily : List (Nat × DayBucket)) :
    List ((Nat × Nat) × PeriodBucket) :=
  (foldAgg (fun e => key e.1) PeriodBucket.zero (fun p e => addDayToPeriod p e.2)
      daily []).map (fun e => (e.1, setPeriodAvg e.2))

/-- The scan for the most productive day: first daily bucket strictly above
the running maximum, which starts at zero with no day. -/
def mostProductiveDayOf (daily : List (Nat × DayBucket)) : Option Nat :=
  (daily.foldl
    (fun acc e => if e.2.timeSpent > acc.1 then (e.2.timeSpent, some e.1) else acc)
    (0, none)).2

/-- The statistics object getProgressStats returns. -/
structure Stats where
  totalRecords : Nat
  totalTimeSpent : Nat
  averageTimeSpent : ℚ
  averageSatisfaction : ℚ
  byDifficulty : List (String × Nat)
  bySatisfaction : List (Nat × Nat)
  byProgressType : List (String × Nat)
  dailyStats : List (Nat × DayBucket)
  weeklyStats : List ((Nat × Nat) × PeriodBucket)
  monthlyStats : List ((Nat × Nat) × PeriodBucket)
  tasksWorkedOn : List Nat
  mostProductiveDay : Option Nat
  longestSession : Nat
  totalSessions : Nat
deriving DecidableEq

/-- ProgressTracker.getProgressStats on the selected sequence of activity
records of one user (selection and ordering happen upstream in
getUserProgress and do not change any of the aggregates below). -/
def ProgressTracker.getProgressStats (records : List ActivityRecord) : Stats :=
  let acc := records.foldl statsStep initAcc
  { totalRecords := records.length
    totalTimeSpent := acc.totalTimeSpent
    averageTimeSpent :=
      if acc.totalSessions > 0 then avg1dp acc.totalTimeSpent acc.totalSessions else 0
    averageSatisfaction :=
      if acc.satisfactionCount > 0 then avg1dp acc.totalSatisfaction acc.satisfactionCount
      else 0
    byDifficulty := acc.byDifficulty
    bySatisfaction := acc.bySatisfaction
    byProgressType := acc.byProgressType
    dailyStats := acc.dailyStats
    weeklyStats := aggregatePeriodStats weekKeyOfDay acc.dailyStats
    monthlyStats := aggregatePeriodStats monthKeyOfDay acc.dailyStats
    tasksWorkedOn := acc.tasksWorkedOn
    mostProductiveDay := mostProductiveDayOf acc.dailyStats
    longestSession := acc.longestSession
    totalSessions := acc.totalSessions }

/-- C9: on the empty input sequence the aggregation is total and returns the
fully populated zero-valued statistics structure: zero totals and
averages, the zero-initialized difficulty, satisfaction and progress-type
tables, empty daily, weekly and monthly buckets, no tasks, no most
productive day, zero longest session and zero sessions. -/
theorem progressStats_empty :
    ProgressTracker.getProgressStats [] =
      { totalRecords := 0
        totalTimeSpent := 0
        averageTimeSpent := 0
        averageSatisfaction := 0
        byDifficulty := [("easy", 0), ("medium", 0), ("hard", 0)]
        bySatisfaction := [(1, 0), (2, 0), (3, 0), (4, 0), (5, 0)]
        byProgressType := [("manual", 0), ("auto", 0), ("timer", 0)]
        dailyStats := []
        weeklyStats := []
        monthlyStats := []
        tasksWorkedOn := []
        mostProductiveDay := none
        longestSession := 0
        totalSessions := 0 } := rfl

theorem getProgressStats_dailyStats (rs : List ActivityRecord) :
    (ProgressTracker.getProgressStats rs).dailyStats =
      (rs.foldl statsStep initAcc).dailyStats := rfl

theorem getProgressStats_weeklyStats (rs : List ActivityRecord) :
    (ProgressTracker.getProgressStats rs).weeklyStats =
      aggregatePeriodStats weekKeyOfDay (rs.foldl statsStep initAcc).dailyStats := rfl

theorem getProgressStats_monthlyStats (rs : List ActivityRecord) :
    (ProgressTracker.getProgressStats rs).monthlyStats =
      aggregatePeriodStats monthKeyOfDay (rs.foldl statsStep initAcc).dailyStats := rfl

theorem getProgressStats_averageTimeSpent (rs : List ActivityRecord) :
    (ProgressTracker.getProgressStats rs).averageTimeSpent =
      if (rs.foldl statsStep initAcc).totalSessions > 0 then
        avg1dp (rs.foldl statsStep initAcc).totalTimeSpent
          (rs.foldl statsStep initAcc).totalSessions
      else 0 := rfl

theorem getProgressStats_averageSatisfaction (rs : List ActivityRecord) :
    (ProgressTracker.getProgressStats rs).averageSatisfaction =
      if (rs.foldl statsStep initAcc).satisfactionCount > 0 then
        avg1dp (rs.foldl statsStep initAcc).totalSatisfaction
          (rs.foldl statsStep initAcc).satisfactionCount
      else 0 := rfl

theorem foldl_statsStep_dailyStats : ∀ (rs : List ActivityRecord) (a : StatsAcc),
    (rs.foldl statsStep a).dailyStats =
      foldAgg (fun r => dayKey r.completedAt) DayBucket.zero
        (fun b r => addRecordToDay b r) rs a.dailyStats := by
  intro rs
  induction rs with
  | nil => intro a; rfl
  | cons r rs ih =>
    intro a
    rw [List.foldl_cons, ih, foldAgg_cons]
    rfl

theorem foldl_statsStep_totalTimeSpent : ∀ (rs : List ActivityRecord) (a : StatsAcc),
    (rs.foldl statsStep a).totalTimeSpent =
      a.totalTimeSpent + (rs.map (fun r => r.timeSpent)).sum := by
  intro rs
  induction rs with
  | nil => intro a; simp
  | cons r rs ih =>
    intro a
    rw [List.foldl_cons, ih]
    show (statsStep a r).totalTimeSpent + _ = _
    simp only [statsStep, List.map_cons, List.sum_cons]
    omega

theorem foldl_statsStep_totalSessions : ∀ (rs : List ActivityRecord) (a : StatsAcc),
    (rs.foldl statsStep a).totalSessions = a.totalSessions + rs.length := by
  intro rs
  induction rs with
  | nil => intro a; simp
  | cons r rs ih =>
    intro a
    rw [List.foldl_cons, ih]
    show (statsStep a r).totalSessions + _ = _
    simp only [statsStep, List.length_cons]
    omega

theorem foldl_statsStep_totalSatisfaction : ∀ (rs : List ActivityRecord) (a : StatsAcc),
    (rs.foldl statsStep a).totalSatisfaction = a.totalSatisfaction +
      ((rs.filter (fun r => decide (r.satisfaction ≠ 0))).map
        (fun r => r.satisfaction)).sum := by
  intro rs
  induction rs with
  | nil => intro a; simp
  | cons r rs ih =>
    intro a
    rw [List.foldl_cons, ih]
    by_cases hs : r.satisfaction = 0
    · simp only [statsStep, List.filter_cons, hs]
      simp
    · have h1 : (statsStep a r).totalSatisfaction
          = a.totalSatisfaction + r.satisfaction := by
        simp [statsStep, hs]
      rw [h1]
      simp only [List.filter_cons, decide_eq_true_eq]
      rw [if_pos hs, List.map_cons, List.sum_cons]
      omega

theorem foldl_statsStep_satisfactionCount : ∀ (rs : List ActivityRecord) (a : StatsAcc),
    (rs.foldl statsStep a).satisfactionCount = a.satisfactionCount +
      (rs.filter (fun r => decide (r.satisfaction ≠ 0))).length := by
  intro rs
  induction rs with
  | nil => intro a; simp
  | cons r rs ih =>
    intro a
    rw [List.foldl_cons, ih]
    by_cases hs : r.satisfaction = 0
    · simp only [statsStep, List.filter_cons, hs]
      simp
    · have h1 : (statsStep a r).satisfactionCount = a.satisfactionCount + 1 := by
        simp [statsStep, hs]
      rw [h1]
      simp only [List.filter_cons, decide_eq_true_eq]
      rw [if_pos hs, List.length_cons]
      omega

theorem setPeriodAvg_timeSpent (p : PeriodBucket) :
    (setPeriodAvg p).timeSpent = p.timeSpent := rfl

/-- What a weekly or monthly bucket found at a key contains: each summed
component is the sum of that component over the daily buckets whose date
maps to the key, and the stored average satisfaction is the rounded ratio
of the stored sums. -/
theorem periodStats_lookup (key : Nat → Nat × Nat) (daily : List (Nat × DayBucket))
    (w : Nat × Nat) (pb : PeriodBucket)
    (h : alookup w (aggregatePeriodStats key daily) = some pb) :
    pb.timeSpent = ((daily.filter (fun e => decide (key e.1 = w))).map
      (fun e => e.2.timeSpent)).sum ∧
    pb.satisfaction = ((daily.filter (fun e => decide (key e.1 = w))).map
      (fun e => e.2.satisfaction)).sum ∧
    pb.satisfactionCount = ((daily.filter (fun e => decide (key e.1 = w))).map
      (fun e => e.2.satisfactionCount)).sum ∧
    pb.averageSatisfaction =
      (if pb.satisfactionCount > 0 then avg1dp pb.satisfaction pb.satisfactionCount
       else 0) := by
  rw [aggregatePeriodStats, alookup_map_value] at h
  cases hc : alookup w (foldAgg (fun e : Nat × DayBucket => key e.1) PeriodBucket.zero
      (fun p e => addDayToPeriod p e.2) daily []) with
  | none => rw [hc] at h; exact absurd h (by simp)
  | some pb0 =>
    rw [hc] at h
    simp only [Option.map_some'] at h
    have hts := alookup_foldAgg_some_sum (fun e : Nat × DayBucket => key e.1)
      PeriodBucket.zero (fun p e => addDayToPeriod p e.2)
      (fun p => p.timeSpent) (fun e => e.2.timeSpent) rfl (fun b a => rfl)
      daily w pb0 hc
    have hsat := alookup_foldAgg_some_sum (fun e : Nat × DayBucket => key e.1)
      PeriodBucket.zero (fun p e => addDayToPeriod p e.2)
      (fun p => p.satisfaction) (fun e => e.2.satisfaction) rfl (fun b a => rfl)
      daily w pb0 hc
    have hcnt := alookup_foldAgg_some_sum (fun e : Nat × DayBucket => key e.1)
      PeriodBucket.zero (fun p e => addDayToPeriod p e.2)
      (fun p => p.satisfactionCount) (fun e => e.2.satisfactionCount) rfl
      (fun b a => rfl) daily w pb0 hc
    have hpb : pb = setPeriodAvg pb0 := (Option.some.inj h).symm
    subst hpb
    exact ⟨hts, hsat, hcnt, rfl⟩

/-- C1: rollup conservation: in the statistics returned by getProgressStats,
the timeSpent of each weekly bucket equals the sum of timeSpent over the
daily buckets whose date maps to that week key, and the timeSpent of each
monthly bucket equals the sum over the daily buckets whose date has that
year and month. -/
theorem rollup_conservation (records : List ActivityRecord) :
    (∀ w pb,
      alookup w (ProgressTracker.getProgressStats records).weeklyStats = some pb →
      pb.timeSpent =
        (((ProgressTracker.getProgressStats records).dailyStats.filter
          (fun e => decide (weekKeyOfDay e.1 = w))).map
            (fun e => e.2.timeSpent)).sum) ∧
    (∀ mo pb,
      alookup mo (ProgressTracker.getProgressStats records).monthlyStats = some pb →
      pb.timeSpent =
        (((ProgressTracker.getProgressStats records).dailyStats.filter
          (fun e => decide (monthKeyOfDay e.1 = mo))).map
            (fun e => e.2.timeSpent)).sum) := by
  constructor
  · intro w pb h
    rw [getProgressStats_weeklyStats] at h
    rw [getProgressStats_dailyStats]
    exact (periodStats_lookup weekKeyOfDay _ w pb h).1
  · intro mo pb h
    rw [getProgressStats_monthlyStats] at h
    rw [getProgressStats_dailyStats]
    exact (periodStats_lookup monthKeyOfDay _ mo pb h).1

/-- C1 witness: one record of 30 minutes on the epoch day; its week bucket
1970-01 and month bucket 1970-01 each hold the 30 minutes of the single
daily bucket. -/
theorem rollup_conservation_witness :
    ({ timeSpent := 30, sessions := 1, satisfaction := 0, satisfactionCount := 0,
       days := 1, averageSatisfaction := 0 } : PeriodBucket).timeSpent =
      (((ProgressTracker.getProgressStats
          [⟨1, 0, 30, 0, "easy", "manual"⟩]).dailyStats.filter
        (fun e => decide (weekKeyOfDay e.1 = (1970, 1)))).map
          (fun e => e.2.timeSpent)).sum ∧
    ({ timeSpent := 30, sessions := 1, satisfaction := 0, satisfactionCount := 0,
       days := 1, averageSatisfaction := 0 } : PeriodBucket).timeSpent =
      (((ProgressTracker.getProgressStats
          [⟨1, 0, 30, 0, "easy", "manual"⟩]).dailyStats.filter
        (fun e => decide (monthKeyOfDay e.1 = (1970, 1)))).map
          (fun e => e.2.timeSpent)).sum :=
  ⟨(rollup_conservation [⟨1, 0, 30, 0, "easy", "manual"⟩]).1 (1970, 1) _ (by decide),
   (rollup_conservation [⟨1, 0, 30, 0, "easy", "manual"⟩]).2 (1970, 1) _ (by decide)⟩

theorem addRecordToDay_timeSpent (b : DayBucket) (r : ActivityRecord) :
    (addRecordToDay b r).timeSpent = b.timeSpent + r.timeSpent := rfl

theorem addRecordToDay_satisfaction (b : DayBucket) (r : ActivityRecord) :
    (addRecordToDay b r).satisfaction = b.satisfaction +
      (if r.satisfaction ≠ 0 then r.satisfaction else 0) := by
  by_cases hs : r.satisfaction = 0 <;> simp [addRecordToDay, hs]

theorem addRecordToDay_satisfactionCount (b : DayBucket) (r : ActivityRecord) :
    (addRecordToDay b r).satisfactionCount = b.satisfactionCount +
      (if r.satisfaction ≠ 0 then 1 else 0) := by
  by_cases hs : r.satisfaction = 0 <;> simp [addRecordToDay, hs]

/-- Sums over the daily buckets filtered by any key predicate equal the
corresponding sums over the records themselves: the record loop loses no
contribution on its way into the daily buckets. -/
theorem daily_filter_sum_records (p : Nat → Bool) (μ : DayBucket → Nat)
    (ν : ActivityRecord → Nat) (hz : μ DayBucket.zero = 0)
    (hg : ∀ b r, μ (addRecordToDay b r) = μ b + ν r) (rs : List ActivityRecord) :
    (((foldAgg (fun r => dayKey r.completedAt) DayBucket.zero
        (fun b r => addRecordToDay b r) rs ([] : List (Nat × DayBucket))).filter
      (fun e => p e.1)).map (fun e => μ e.2)).sum =
      ((rs.filter (fun r => p (dayKey r.completedAt))).map ν).sum := by
  have h := sumBy_foldAgg p μ (fun r => dayKey r.completedAt) DayBucket.zero
    (fun b r => addRecordToDay b r) ν hz hg rs []
  rw [sumBy_nil] at h
  simpa [sumBy] using h

theorem sum_satContrib_filter (rs : List ActivityRecord) (q : ActivityRecord → Bool) :
    ((rs.filter q).map (fun r => if r.satisfaction ≠ 0 then r.satisfaction else 0)).sum
      = ((rs.filter (fun r => q r && decide (r.satisfaction ≠ 0))).map
        (fun r => r.satisfaction)).sum := by
  induction rs with
  | nil => rfl
  | cons r rs ih =>
    by_cases hq : q r
    · by_cases hs : r.satisfaction = 0
      · simp [List.filter_cons, hq, hs] at ih ⊢
        omega
      · simp [List.filter_cons, hq, hs] at ih ⊢
        omega
    · simp [List.filter_cons, hq] at ih ⊢
      omega

theorem count_satContrib_filter (rs : List ActivityRecord) (q : ActivityRecord → Bool) :
    ((rs.filter q).map (fun r => if r.satisfaction ≠ 0 then 1 else 0)).sum
      = (rs.filter (fun r => q r && decide (r.satisfaction ≠ 0))).length := by
  induction rs with
  | nil => rfl
  | cons r rs ih =>
    by_cases hq : q r
    · by_cases hs : r.satisfaction = 0
      · simp [List.filter_cons, hq, hs] at ih ⊢
        omega
      · simp [List.filter_cons, hq, hs] at ih ⊢
        omega
    · simp [List.filter_cons, hq] at ih ⊢
      omega

/-- C10: every exposed average is the exact arithmetic mean rounded to one
decimal place (round of ten times the mean, divided by ten), with mean 0
when the denominator is 0: averageTimeSpent over all records,
averageSatisfaction over the records carrying a satisfaction rating, and
each weekly or monthly bucket average satisfaction over the rated records
of that period. -/
theorem averages_one_decimal (rs : List ActivityRecord) :
    ((ProgressTracker.getProgressStats rs).averageTimeSpent =
      if rs.length = 0 then 0
      else (jsRound (10 * (((rs.map (fun r => r.timeSpent)).sum : ℚ)
        / (rs.length : ℚ))) : ℚ) / 10) ∧
    ((ProgressTracker.getProgressStats rs).averageSatisfaction =
      if (rs.filter (fun r => decide (r.satisfaction ≠ 0))).length = 0 then 0
      else (jsRound (10 *
        ((((rs.filter (fun r => decide (r.satisfaction ≠ 0))).map
            (fun r => r.satisfaction)).sum : ℚ)
          / ((rs.filter (fun r => decide (r.satisfaction ≠ 0))).length : ℚ))) : ℚ)
        / 10) ∧
    (∀ w pb,
      alookup w (ProgressTracker.getProgressStats rs).weeklyStats = some pb →
      pb.averageSatisfaction =
        if (rs.filter (fun r => decide (weekKeyOfDay (dayKey r.completedAt) = w)
              && decide (r.satisfaction ≠ 0))).length = 0 then 0
        else (jsRound (10 *
          ((((rs.filter (fun r => decide (weekKeyOfDay (dayKey r.completedAt) = w)
                && decide (r.satisfaction ≠ 0))).map
              (fun r => r.satisfaction)).sum : ℚ)
            / ((rs.filter (fun r => decide (weekKeyOfDay (dayKey r.completedAt) = w)
                && decide (r.satisfaction ≠ 0))).length : ℚ))) : ℚ) / 10) ∧
    (∀ mo pb,
      alookup mo (ProgressTracker.getProgressStats rs).monthlyStats = some pb →
      pb.averageSatisfaction =
        if (rs.filter (fun r => decide (monthKeyOfDay (dayKey r.completedAt) = mo)
              && decide (r.satisfaction ≠ 0))).length = 0 then 0
        else (jsRound (10 *
          ((((rs.filter (fun r => decide (monthKeyOfDay (dayKey r.completedAt) = mo)
                && decide (r.satisfaction ≠ 0))).map
              (fun r => r.satisfaction)).sum : ℚ)
            / ((rs.filter (fun r => decide (monthKeyOfDay (dayKey r.completedAt) = mo)
                && decide (r.satisfaction ≠ 0))).length : ℚ))) : ℚ) / 10) := by
  refine ⟨?_, ?_, ?_, ?_⟩
  · rw [getProgressStats_averageTimeSpent, foldl_statsStep_totalTimeSpent,
      foldl_statsStep_totalSessions]
    simp only [initAcc, Nat.zero_add]
    by_cases h : rs.length = 0
    · simp [h]
    · rw [if_pos (Nat.pos_of_ne_zero h), if_neg h, avg1dp]
      exact congrArg (fun z : ℤ => (z : ℚ) / 10) (congrArg jsRound (by push_cast [List.map_map, Function.comp_def]; ring))
  · rw [getProgressStats_averageSatisfaction, foldl_statsStep_totalSatisfaction,
      foldl_statsStep_satisfactionCount]
    simp only [initAcc, Nat.zero_add]
    by_cases h : (rs.filter (fun r => decide (r.satisfaction ≠ 0))).length = 0
    · rw [h]
      simp
    · rw [if_pos (Nat.pos_of_ne_zero h), if_neg h, avg1dp]
      exact congrArg (fun z : ℤ => (z : ℚ) / 10) (congrArg jsRound (by push_cast [List.map_map, Function.comp_def]; ring))
  · intro w pb h
    rw [getProgressStats_weeklyStats, foldl_statsStep_dailyStats] at h
    simp only [initAcc] at h
    obtain ⟨_, hsat, hcnt, havg⟩ := periodStats_lookup weekKeyOfDay _ w pb h
    rw [daily_filter_sum_records (fun d => decide (weekKeyOfDay d = w))
      (fun b => b.satisfaction) (fun r => if r.satisfaction ≠ 0 then r.satisfaction else 0)
      rfl addRecordToDay_satisfaction rs,
      sum_satContrib_filter] at hsat
    rw [daily_filter_sum_records (fun d => decide (weekKeyOfDay d = w))
      (fun b => b.satisfactionCount) (fun r => if r.satisfaction ≠ 0 then 1 else 0)
      rfl addRecordToDay_satisfactionCount rs,
      count_satContrib_filter] at hcnt
    rw [havg, hsat, hcnt]
    by_cases hlen : (rs.filter (fun r => decide (weekKeyOfDay (dayKey r.completedAt) = w)
        && decide (r.satisfaction ≠ 0))).length = 0
    · rw [hlen]
      simp
    · rw [if_pos (Nat.pos_of_ne_zero hlen), if_neg hlen, avg1dp]
      exact congrArg (fun z : ℤ => (z : ℚ) / 10) (congrArg jsRound (by push_cast [List.map_map, Function.comp_def]; ring))
  · intro mo pb h
    rw [getProgressStats_monthlyStats, foldl_statsStep_dailyStats] at h
    simp only [initAcc] at h
    obtain ⟨_, hsat, hcnt, havg⟩ := periodStats_lookup monthKeyOfDay _ mo pb h
    rw [daily_filter_sum_records (fun d => decide (monthKeyOfDay d = mo))
      (fun b => b.satisfaction) (fun r => if r.satisfaction ≠ 0 then r.satisfaction else 0)
      rfl addRecordToDay_satisfaction rs,
      sum_satContrib_filter] at hsat
    rw [daily_filter_sum_records (fun d => decide (monthKeyOfDay d = mo))
      (fun b => b.satisfactionCount) (fun r => if r.satisfaction ≠ 0 then 1 else 0)
      rfl addRecordToDay_satisfactionCount rs,
      count_satContrib_filter] at hcnt
    rw [havg, hsat, hcnt]
    by_cases hlen : (rs.filter (fun r => decide (monthKeyOfDay (dayKey r.completedAt) = mo)
        && decide (r.satisfaction ≠ 0))).length = 0
    · rw [hlen]
      simp
    · rw [if_pos (Nat.pos_of_ne_zero hlen), if_neg hlen, avg1dp]
      exact congrArg (fun z : ℤ => (z : ℚ) / 10) (congrArg jsRound (by push_cast [List.map_map, Function.comp_def]; ring))

/-- The concrete input of the C10 witness: one unrated record of 30 minutes
on the epoch day. -/
def c10rs : List ActivityRecord := [⟨1, 0, 30, 0, "easy", "manual"⟩]

/-- The week and month bucket of the C10 witness input. -/
def c10pb : PeriodBucket := ⟨30, 1, 0, 0, 1, 0⟩

/-- C10 witness: on the one-record input the 1970-01 week and month buckets
carry average satisfaction 0 because no record in the period is rated. -/
theorem averages_one_decimal_witness :
    (c10pb.averageSatisfaction =
      if (c10rs.filter (fun r => decide (weekKeyOfDay (dayKey r.completedAt) = (1970, 1))
            && decide (r.satisfaction ≠ 0))).length = 0 then 0
      else (jsRound (10 *
        ((((c10rs.filter (fun r => decide (weekKeyOfDay (dayKey r.completedAt) = (1970, 1))
              && decide (r.satisfaction ≠ 0))).map
            (fun r => r.satisfaction)).sum : ℚ)
          / ((c10rs.filter (fun r => decide (weekKeyOfDay (dayKey r.completedAt) = (1970, 1))
              && decide (r.satisfaction ≠ 0))).length : ℚ))) : ℚ) / 10) ∧
    (c10pb.averageSatisfaction =
      if (c10rs.filter (fun r => decide (monthKeyOfDay (dayKey r.completedAt) = (1970, 1))
            && decide (r.satisfaction ≠ 0))).length = 0 then 0
      else (jsRound (10 *
        ((((c10rs.filter (fun r => decide (monthKeyOfDay (dayKey r.completedAt) = (1970, 1))
              && decide (r.satisfaction ≠ 0))).map
            (fun r => r.satisfaction)).sum : ℚ)
          / ((c10rs.filter (fun r => decide (monthKeyOfDay (dayKey r.completedAt) = (1970, 1))
              && decide (r.satisfaction ≠ 0))).length : ℚ))) : ℚ) / 10) :=
  ⟨(averages_one_decimal c10rs).2.2.1 (1970, 1) c10pb (by decide),
   (averages_one_decimal c10rs).2.2.2 (1970, 1) c10pb (by decide)⟩

theorem periodStats_timeSpent_getD (key : Nat → Nat × Nat)
    (daily : List (Nat × DayBucket)) (w : Nat × Nat) :
    ((alookup w (aggregatePeriodStats key daily)).map (fun p => p.timeSpent)).getD 0 =
      ((daily.filter (fun e => decide (key e.1 = w))).map
        (fun e => e.2.timeSpent)).sum := by
  rw [aggregatePeriodStats, alookup_map_value, Option.map_map]
  have hcomp : ((fun p : PeriodBucket => p.timeSpent) ∘ setPeriodAvg)
      = fun p : PeriodBucket => p.timeSpent := by
    funext p
    rfl
  rw [hcomp]
  exact alookup_foldAgg_getD (fun e : Nat × DayBucket => key e.1) PeriodBucket.zero
    (fun p e => addDayToPeriod p e.2) (fun p => p.timeSpent) (fun e => e.2.timeSpent)
    rfl (fun b a => rfl) daily w

structure GoalEntry where
  target : Nat
  actual : Nat
  percentage : ℤ
  completed : Bool
deriving DecidableEq

/-- One goal-progress block of getGoalProgress: target, accumulated actual,
rounded percentage of the target, and the completion flag. -/
def goalEntryFor (actual target : Nat) : GoalEntry :=
  { target := target
    actual := actual
    percentage := jsRound (((actual : ℚ) / (target : ℚ)) * 100)
    completed := decide (actual ≥ target) }

/-- ProgressTracker.getGoalProgress: for each goal with a truthy (nonzero)
target, read the accumulated duration of the current day, week and month
from the statistics buckets (0 when the bucket is absent) and build the
goal entry; absent goals yield no entry.  The source reads the statistics
object once; it is spelled per component here. -/
def ProgressTracker.getGoalProgress (records : List ActivityRecord) (now : Nat)
    (dailyMinutes weeklyMinutes monthlyMinutes : Nat) :
    Option GoalEntry × Option GoalEntry × Option GoalEntry :=
  (if dailyMinutes ≠ 0 then
     some (goalEntryFor (((alookup (dayKey now)
       (ProgressTracker.getProgressStats records).dailyStats).map
         (fun b => b.timeSpent)).getD 0) dailyMinutes)
   else none,
   if weeklyMinutes ≠ 0 then
     some (goalEntryFor (((alookup (ProgressTracker.getWeekKey now)
       (ProgressTracker.getProgressStats records).weeklyStats).map
         (fun p => p.timeSpent)).getD 0) weeklyMinutes)
   else none,
   if monthlyMinutes ≠ 0 then
     some (goalEntryFor (((alookup (monthKeyOfDay (dayKey now))
       (ProgressTracker.getProgressStats records).monthlyStats).map
         (fun p => p.timeSpent)).getD 0) monthlyMinutes)
   else none)

/-- Total minutes of the records whose calendar day satisfies a period
predicate: the accumulated actual duration of that period. -/
def actualInPeriod (rs : List ActivityRecord) (p : Nat → Bool) : Nat :=
  ((rs.filter (fun r => p (dayKey r.completedAt))).map (fun r => r.timeSpent)).sum

theorem goalEntryFor_fields (a t : Nat) :
    goalEntryFor a t =
      { target := t, actual := a,
        percentage := jsRound (100 * (a : ℚ) / (t : ℚ)),
        completed := decide (a ≥ t) } := by
  unfold goalEntryFor
  congr 1
  exact congrArg jsRound (by ring)

/-- C8: with positive targets, getGoalProgress returns for the day, the week
and the month containing now an entry whose target is the goal, whose
actual is the accumulated duration of that period over the records, whose
percentage is round(100 * actual / target) and whose completed flag is
actual at least target. -/
theorem goal_progress_eval (rs : List ActivityRecord) (now dG wG mG : Nat)
    (hd : 0 < dG) (hw : 0 < wG) (hm : 0 < mG) :
    ProgressTracker.getGoalProgress rs now dG wG mG =
      (some { target := dG
              actual := actualInPeriod rs (fun d => decide (d = dayKey now))
              percentage := jsRound (100 *
                (actualInPeriod rs (fun d => decide (d = dayKey now)) : ℚ) / (dG : ℚ))
              completed := decide
                (actualInPeriod rs (fun d => decide (d = dayKey now)) ≥ dG) },
       some { target := wG
              actual := actualInPeriod rs
                (fun d => decide (weekKeyOfDay d = weekKeyOfDay (dayKey now)))
              percentage := jsRound (100 *
                (actualInPeriod rs
                  (fun d => decide (weekKeyOfDay d = weekKeyOfDay (dayKey now))) : ℚ)
                / (wG : ℚ))
              completed := decide (actualInPeriod rs
                (fun d => decide (weekKeyOfDay d = weekKeyOfDay (dayKey now))) ≥ wG) },
       some { target := mG
              actual := actualInPeriod rs
                (fun d => decide (monthKeyOfDay d = monthKeyOfDay (dayKey now)))
              percentage := jsRound (100 *
                (actualInPeriod rs
                  (fun d => decide (monthKeyOfDay d = monthKeyOfDay (dayKey now))) : ℚ)
                / (mG : ℚ))
              completed := decide (actualInPeriod rs
                (fun d => decide (monthKeyOfDay d = monthKeyOfDay (dayKey now))) ≥ mG) }) := by
  have hxD : ((alookup (dayKey now)
      (ProgressTracker.getProgressStats rs).dailyStats).map
        (fun b => b.timeSpent)).getD 0
      = actualInPeriod rs (fun d => decide (d = dayKey now)) := by
    rw [getProgressStats_dailyStats, foldl_statsStep_dailyStats]
    simp only [initAcc]
    exact alookup_foldAgg_getD (fun r => dayKey r.completedAt) DayBucket.zero
      (fun b r => addRecordToDay b r) (fun b => b.timeSpent) (fun r => r.timeSpent)
      rfl addRecordToDay_timeSpent rs (dayKey now)
  have hxW : ((alookup (ProgressTracker.getWeekKey now)
      (ProgressTracker.getProgressStats rs).weeklyStats).map
        (fun p => p.timeSpent)).getD 0
      = actualInPeriod rs
        (fun d => decide (weekKeyOfDay d = weekKeyOfDay (dayKey now))) := by
    rw [getProgressStats_weeklyStats, foldl_statsStep_dailyStats]
    simp only [initAcc]
    rw [getWeekKey_timestamp_day, periodStats_timeSpent_getD]
    exact daily_filter_sum_records
      (fun d => decide (weekKeyOfDay d = weekKeyOfDay (dayKey now)))
      (fun b => b.timeSpent) (fun r => r.timeSpent) rfl addRecordToDay_timeSpent rs
  have hxM : ((alookup (monthKeyOfDay (dayKey now))
      (ProgressTracker.getProgressStats rs).monthlyStats).map
        (fun p => p.timeSpent)).getD 0
      = actualInPeriod rs
        (fun d => decide (monthKeyOfDay d = monthKeyOfDay (dayKey now))) := by
    rw [getProgressStats_monthlyStats, foldl_statsStep_dailyStats]
    simp only [initAcc]
    rw [periodStats_timeSpent_getD]
    exact daily_filter_sum_records
      (fun d => decide (monthKeyOfDay d = monthKeyOfDay (dayKey now)))
      (fun b => b.timeSpent) (fun r => r.timeSpent) rfl addRecordToDay_timeSpent rs
  unfold ProgressTracker.getGoalProgress
  rw [if_pos (Nat.pos_iff_ne_zero.mp hd), if_pos (Nat.pos_iff_ne_zero.mp hw),
    if_pos (Nat.pos_iff_ne_zero.mp hm), hxD, hxW, hxM,
    goalEntryFor_fields, goalEntryFor_fields, goalEntryFor_fields]

/-- The concrete input of the C8 witness: one record of 45 minutes on the
epoch day, evaluated at now = epoch with goals 60, 100 and 200 minutes. -/
def c8rs : List ActivityRecord := [⟨1, 0, 45, 0, "", "manual"⟩]

/-- C8 witness realizing the spec scenario of a 60 minute daily goal with 45
minutes accumulated today. -/
theorem goal_progress_eval_witness :
    ProgressTracker.getGoalProgress c8rs 0 60 100 200 =
      (some { target := 60
              actual := actualInPeriod c8rs (fun d => decide (d = dayKey 0))
              percentage := jsRound (100 *
                (actualInPeriod c8rs (fun d => decide (d = dayKey 0)) : ℚ) / (60 : ℚ))
              completed := decide
                (actualInPeriod c8rs (fun d => decide (d = dayKey 0)) ≥ 60) },
       some { target := 100
              actual := actualInPeriod c8rs
                (fun d => decide (weekKeyOfDay d = weekKeyOfDay (dayKey 0)))
              percentage := jsRound (100 *
                (actualInPeriod c8rs
                  (fun d => decide (weekKeyOfDay d = weekKeyOfDay (dayKey 0))) : ℚ)
                / (100 : ℚ))
              completed := decide (actualInPeriod c8rs
                (fun d => decide (weekKeyOfDay d = weekKeyOfDay (dayKey 0))) ≥ 100) },
       some { target := 200
              actual := actualInPeriod c8rs
                (fun d => decide (monthKeyOfDay d = monthKeyOfDay (dayKey 0)))
              percentage := jsRound (100 *
                (actualInPeriod c8rs
                  (fun d => decide (monthKeyOfDay d = monthKeyOfDay (dayKey 0))) : ℚ)
                / (200 : ℚ))
              completed := decide (actualInPeriod c8rs
                (fun d => decide (monthKeyOfDay d = monthKeyOfDay (dayKey 0))) ≥ 200) }) :=
  goal_progress_eval c8rs 0 60 100 200 (by decide) (by decide) (by decide)

structure HeatmapEntry where
  date : Nat
  timeSpent : Nat
  level : Nat
deriving DecidableEq

/-- ProgressTracker.getHeatmapLevel: the discrete activity level of a day
from its summed minutes. -/
def ProgressTracker.getHeatmapLevel (timeSpent : Nat) : Nat :=
  if timeSpent = 0 then 0
  else if timeSpent < 30 then 1
  else if timeSpent < 60 then 2
  else if timeSpent < 120 then 3
  else 4

/-- One iteration body of the heatmap date loop: the entry of the calendar
day containing the running timestamp, zero-filled from the daily totals. -/
def mkHeatmapEntry (dailyTime : List (Nat × Nat)) (d : Nat) : HeatmapEntry :=
  { date := dayKey d
    timeSpent := (alookup (dayKey d) dailyTime).getD 0
    level := ProgressTracker.getHeatmapLevel ((alookup (dayKey d) dailyTime).getD 0) }

/-- The for loop of getHeatmapData: from timestamp d while d ≤ e, stepping
one day, structurally on a fuel bound that always suffices because a day
is at least one millisecond. -/
def heatLoopAux (dailyTime : List (Nat × Nat)) : Nat → Nat → Nat → List HeatmapEntry
  | 0, _, _ => []
  | fuel + 1, d, e =>
    if d ≤ e then
      mkHeatmapEntry dailyTime d :: heatLoopAux dailyTime fuel (d + msPerDay) e
    else []

/-- ProgressTracker.getHeatmapData: filter the records to the window from
days - 1 days before now through the end of today, total their minutes per
calendar day, and emit one entry per day of the window.  The claims
consider windows of at least one day. -/
def ProgressTracker.getHeatmapData (records : List ActivityRecord) (now days : Nat) :
    List HeatmapEntry :=
  let startDate := now - (days - 1) * msPerDay
  let endOfToday := dayKey now * msPerDay + (msPerDay - 1)
  let progress := records.filter
    (fun r => decide (startDate ≤ r.completedAt) && decide (r.completedAt ≤ endOfToday))
  let dailyTime := foldAgg (fun r => dayKey r.completedAt) 0
    (fun t r => t + r.timeSpent) progress []
  heatLoopAux dailyTime (now + 1 - startDate) startDate now

theorem getHeatmapData_eq (records : List ActivityRecord) (now days : Nat) :
    ProgressTracker.getHeatmapData records now days =
      heatLoopAux
        (foldAgg (fun r => dayKey r.completedAt) 0 (fun t r => t + r.timeSpent)
          (records.filter (fun r =>
            decide (now - (days - 1) * msPerDay ≤ r.completedAt)
              && decide (r.completedAt ≤ dayKey now * msPerDay + (msPerDay - 1)))) [])
        (now + 1 - (now - (days - 1) * msPerDay))
        (now - (days - 1) * msPerDay) now := rfl

theorem heatLoopAux_eq (dailyTime : List (Nat × Nat)) :
    ∀ (fuel d e : Nat), e + 1 - d ≤ fuel →
      heatLoopAux dailyTime fuel d e =
        (List.range (if d ≤ e then (e - d) / msPerDay + 1 else 0)).map
          (fun k => mkHeatmapEntry dailyTime (d + k * msPerDay)) := by
  have hms : msPerDay = 86400000 := rfl
  intro fuel
  induction fuel with
  | zero =>
    intro d e hle
    have hd : ¬ d ≤ e := by omega
    simp [heatLoopAux, hd]
  | succ fuel ih =>
    intro d e hle
    by_cases hd : d ≤ e
    · simp only [heatLoopAux, if_pos hd]
      rw [ih (d + msPerDay) e (by omega)]
      by_cases hd2 : d + msPerDay ≤ e
      · rw [if_pos hd2]
        have hn : (e - d) / msPerDay + 1 = ((e - (d + msPerDay)) / msPerDay + 1) + 1 := by
          have h1 : e - d = (e - (d + msPerDay)) + msPerDay := by omega
          rw [h1, Nat.add_div_right _ (by omega)]
        rw [hn]
        conv_rhs => rw [List.range_succ_eq_map, List.map_cons, List.map_map]
        congr 1
        refine List.map_congr_left ?_
        intro a _
        simp only [Function.comp_apply]
        congr 1
        rw [hms]
        omega
      · rw [if_neg hd2]
        have h0 : (e - d) / msPerDay = 0 := Nat.div_eq_of_lt (by omega)
        rw [h0]
        simp [List.range_succ]
    · simp only [heatLoopAux, if_neg hd]
      simp

/-- C3: for a window of N days (N at least 1, the whole window after the
epoch) ending at now, getHeatmapData returns exactly N entries; the entry
at index i is dated i days after the first day of the window, so the
dates increase by exactly one calendar day with no duplicates or gaps and
end at the day of now; and every entry whose day carries no activity
record reports zero timeSpent. -/
theorem heatmap_window (records : List ActivityRecord) (now N : Nat)
    (hN : 1 ≤ N) (hnow : (N - 1) * msPerDay ≤ now) :
    (ProgressTracker.getHeatmapData records now N).length = N ∧
    (∀ i, ∀ h : i < (ProgressTracker.getHeatmapData records now N).length,
      ((ProgressTracker.getHeatmapData records now N).get ⟨i, h⟩).date
        = dayKey now - (N - 1) + i) ∧
    (∀ en ∈ ProgressTracker.getHeatmapData records now N,
      (∀ r ∈ records, dayKey r.completedAt ≠ en.date) → en.timeSpent = 0) := by
  have hms : msPerDay = 86400000 := rfl
  have hmspos : 0 < msPerDay := by rw [hms]; omega
  have hstart : now - (N - 1) * msPerDay ≤ now := Nat.sub_le _ _
  have heq := getHeatmapData_eq records now N
  rw [heatLoopAux_eq _ _ _ _ (le_refl _), if_pos hstart] at heq
  have hdiff : now - (now - (N - 1) * msPerDay) = (N - 1) * msPerDay := by
    omega
  rw [hdiff, Nat.mul_div_cancel _ hmspos] at heq
  have hcount : N - 1 + 1 = N := by omega
  rw [hcount] at heq
  have hble : N - 1 ≤ now / msPerDay := (Nat.le_div_iff_mul_le hmspos).mpr hnow
  have hmod : now % msPerDay < msPerDay := Nat.mod_lt _ hmspos
  have hdm : msPerDay * (now / msPerDay) + now % msPerDay = now := Nat.div_add_mod _ _
  have hsplit : now - (N - 1) * msPerDay
      = msPerDay * (now / msPerDay - (N - 1)) + now % msPerDay := by
    rw [hms] at hdm hnow ⊢
    omega
  have hday : ∀ k : Nat,
      dayKey (now - (N - 1) * msPerDay + k * msPerDay) = dayKey now - (N - 1) + k := by
    intro k
    show (now - (N - 1) * msPerDay + k * msPerDay) / msPerDay = _
    rw [Nat.add_mul_div_right _ _ hmspos, hsplit, Nat.mul_add_div hmspos,
      Nat.div_eq_of_lt hmod, Nat.add_zero]
    rfl
  rw [heq]
  refine ⟨by simp, ?_, ?_⟩
  · intro i h
    rw [List.get_eq_getElem]
    simp only [List.getElem_map, List.getElem_range]
    exact hday i
  · intro en hen hnone
    obtain ⟨k, hk, hke⟩ := List.mem_map.mp hen
    have hdate : en.date = dayKey (now - (N - 1) * msPerDay + k * msPerDay) := by
      rw [← hke]
      rfl
    have hid : ∀ o : Option Nat, (o.map (fun t => t)).getD 0 = o.getD 0 := by
      intro o
      cases o <;> rfl
    have hgetd := alookup_foldAgg_getD (fun r : ActivityRecord => dayKey r.completedAt)
      0 (fun t r => t + r.timeSpent) (fun t => t) (fun r => r.timeSpent)
      rfl (fun b a => rfl)
      (records.filter (fun r =>
        decide (now - (N - 1) * msPerDay ≤ r.completedAt)
          && decide (r.completedAt ≤ dayKey now * msPerDay + (msPerDay - 1))))
      (dayKey (now - (N - 1) * msPerDay + k * msPerDay))
    rw [hid] at hgetd
    have hzero : ((records.filter (fun r =>
        decide (now - (N - 1) * msPerDay ≤ r.completedAt)
          && decide (r.completedAt ≤ dayKey now * msPerDay + (msPerDay - 1)))).filter
        (fun r => decide (dayKey r.completedAt
          = dayKey (now - (N - 1) * msPerDay + k * msPerDay)))) = [] := by
      rw [List.filter_eq_nil_iff]
      intro r hr
      have hrm := List.mem_of_mem_filter hr
      simp only [decide_eq_true_eq]
      exact fun hc => hnone r hrm (hdate ▸ hc ▸ rfl)
    rw [← hke]
    show (alookup (dayKey (now - (N - 1) * msPerDay + k * msPerDay)) _).getD 0 = 0
    rw [hgetd, hzero]
    rfl

/-- C3 witness: a three day window ending on epoch day 2, with a single
record of 15 minutes on epoch day 0. -/
theorem heatmap_window_witness :
    (ProgressTracker.getHeatmapData [⟨1, 0, 15, 0, "", "manual"⟩]
      172800000 3).length = 3 ∧
    (∀ i, ∀ h : i < (ProgressTracker.getHeatmapData [⟨1, 0, 15, 0, "", "manual"⟩]
        172800000 3).length,
      ((ProgressTracker.getHeatmapData [⟨1, 0, 15, 0, "", "manual"⟩]
        172800000 3).get ⟨i, h⟩).date = dayKey 172800000 - (3 - 1) + i) ∧
    (∀ en ∈ ProgressTracker.getHeatmapData [⟨1, 0, 15, 0, "", "manual"⟩]
        172800000 3,
      (∀ r ∈ [(⟨1, 0, 15, 0, "", "manual"⟩ : ActivityRecord)],
        dayKey r.completedAt ≠ en.date) → en.timeSpent = 0) :=
  heatmap_window [⟨1, 0, 15, 0, "", "manual"⟩] 172800000 3 (by decide) (by decide)
